import Mathlib

/-
Verification of the generate_and_filter_images pipeline from
src/atlaswildfiretool/generative/utils.py (lines 29-204).

The stochastic front end (latent sampling, VAE decoding, Gaussian smoothing,
lines 72-86) is floating point and stochastic; the embedding therefore takes
the list of smoothed 2D images as its input, and models pixel values as
rationals.  The SSIM metric (skimage structural_similarity, a windowed
floating-point metric, together with the data_range argument built from the
generated image at line 142) is passed as an abstract scoring function ssimF:
the code only compares its value against the running best, so every claim
treats it abstractly.
-/

/-- A 2D image: a list of rows of rational pixel values. -/
abbrev Image : Type := List (List ℚ)

namespace WildfireGen

/-- Line 95: binary_image = np.where(generated_image >= threshold, 1, 0).
A pixel becomes 1 when its value is at least the threshold, else 0. -/
def binarize (threshold : ℚ) (img : Image) : Image :=
  img.map (fun row => row.map (fun x => if threshold ≤ x then 1 else 0))

/-- Line 98: total_pixels = np.prod(binary_image.shape), the number of
entries of the 2D array. -/
def total_pixels (img : Image) : ℕ :=
  (img.map List.length).sum

/-- Line 99: active_pixels = np.sum(binary_image == 1). -/
def active_pixels (img : Image) : ℕ :=
  (img.map (fun row => row.countP (fun x => x == 1))).sum

/-- Line 100: pixel_ratio = (active_pixels / total_pixels) * 100. -/
def pixel_ratio (img : Image) : ℚ :=
  ((active_pixels img : ℚ) / (total_pixels img : ℚ)) * 100

/-- Line 111: the test pixel_ratio_range[0] <= pixel_ratio <= pixel_ratio_range[1]. -/
def ratio_in_range (lo hi : ℚ) (img : Image) : Bool :=
  decide (lo ≤ pixel_ratio img) && decide (pixel_ratio img ≤ hi)

/-- Lines 89-112: the generation loop.  Each smoothed image is squeezed
(the identity on 2D data), binarized with the threshold, and appended to
filtered_generated_images when its pixel ratio lies in the inclusive range. -/
def filter_loop (threshold lo hi : ℚ) (smoothed : List Image) : List Image :=
  smoothed.foldl
    (fun acc img =>
      let b := binarize threshold img
      if ratio_in_range lo hi b then acc ++ [b] else acc)
    []

/-- The flattened pixel list of a 2D image. -/
def flat_pixels (img : Image) : List ℚ :=
  img.flatten

/-- sklearn.metrics.mean_squared_error on two equal-shaped 2D arrays: the
arithmetic mean of the squared elementwise differences. -/
def mean_squared_error (a b : Image) : ℚ :=
  (((flat_pixels a).zip (flat_pixels b)).map (fun p => (p.1 - p.2) ^ 2)).sum /
    ((flat_pixels a).length : ℚ)

/-- Lines 122-127: the running state of the Phase A best-match search.
float("inf") is the top element of WithTop, and the three best references
start unset (None). -/
structure MatchState where
  lowest_mse : WithTop ℚ
  highest_ssim : ℚ
  best_generated_image : Option Image
  best_obs_image : Option Image
  best_obs_index : Option ℕ
deriving DecidableEq

/-- Lines 123-127: the initial Phase A state. -/
def init_match_state : MatchState :=
  { lowest_mse := ⊤
    highest_ssim := -1
    best_generated_image := none
    best_obs_image := none
    best_obs_index := none }

/-- Lines 136-151: the body of the inner comparison loop for one pair of a
filtered generated image and obs_dataset[j].  ssimF stands for the call
ssim(obs_image, generated_image, data_range=...) at lines 139-143. -/
def phase_a_step (ssimF : Image → Image → ℚ) (st : MatchState)
    (gen : Image) (j : ℕ) (obs : Image) : MatchState :=
  let mse := mean_squared_error obs gen
  let ssim_value := ssimF obs gen
  if (mse : WithTop ℚ) < st.lowest_mse ∧ st.highest_ssim < ssim_value then
    { lowest_mse := (mse : WithTop ℚ)
      highest_ssim := ssim_value
      best_generated_image := some gen
      best_obs_image := some obs
      best_obs_index := some j }
  else st

/-- Lines 133-151: the inner loop, for j in range(len(obs_dataset)), with
obs_image = obs_dataset[j].squeeze(). -/
def phase_a_inner (ssimF : Image → Image → ℚ) (obs_dataset : List Image)
    (gen : Image) (st : MatchState) : MatchState :=
  (List.range obs_dataset.length).foldl
    (fun st j => phase_a_step ssimF st gen j (obs_dataset.getD j []))
    st

/-- Lines 129-151: the outer Phase A loop over the filtered generated images. -/
def phase_a (ssimF : Image → Image → ℚ) (filtered : List Image)
    (obs_dataset : List Image) : MatchState :=
  filtered.foldl (fun st gen => phase_a_inner ssimF obs_dataset gen st)
    init_match_state

/-- The ordering on (mse, image) pairs used to model Phase B ranking:
compare by the mse component. -/
def mse_le (p q : ℚ × Image) : Prop :=
  p.1 ≤ q.1

instance : DecidableRel mse_le :=
  fun p q => inferInstanceAs (Decidable (p.1 ≤ q.1))

instance : IsTotal (ℚ × Image) mse_le :=
  ⟨fun p q => le_total p.1 q.1⟩

instance : IsTrans (ℚ × Image) mse_le :=
  ⟨fun _ _ _ h h2 => le_trans h h2⟩

/-- Line 36: the default of the num_images parameter. -/
def num_images_default : ℕ := 10

/-- Lines 164-173: Phase B.  mse_list pairs every filtered image with its MSE
to the Phase A best image (line 167, mean_squared_error(best, g)); np.argsort
on mse_list followed by indexing (lines 171-173) is modelled as a stable sort
of the (mse, image) pairs by mse, truncated to num_images.  The first
component lists top_mses, the second top_images. -/
def phase_b (best : Image) (filtered : List Image) (num_images : ℕ) :
    List ℚ × List Image :=
  let mse_list := filtered.map (fun g => mean_squared_error best g)
  let top := ((mse_list.zip filtered).insertionSort mse_le).take num_images
  (top.map Prod.fst, top.map Prod.snd)

/-- Lines 110-112 as a standalone component: the ratio filter over a list of
already-binarized images, keeping those whose pixel ratio lies in the
inclusive range. -/
def ratio_filter (lo hi : ℚ) (bins : List Image) : List Image :=
  bins.filter (ratio_in_range lo hi)

/-- The success tuple returned at lines 196-204. -/
structure SuccessData where
  filtered_generated_images : List Image
  best_generated_image : Image
  best_obs_image : Image
  best_obs_index : ℕ
  lowest_mse : WithTop ℚ
  top_images : List Image
  top_mses : List ℚ
deriving DecidableEq

/-- The observable outcome of a call: the None sentinel returned at line 117
when no image passes the ratio filter, the uncaught runtime error raised
downstream (lines 155, 167) when the Phase A best references were never set,
or the success tuple of lines 196-204. -/
inductive PipeOutput where
  | noResult : PipeOutput
  | crash : PipeOutput
  | success : SuccessData → PipeOutput
deriving DecidableEq

/-- Lines 89-204 of generate_and_filter_images, starting from the smoothed
images: filter by pixel ratio, return the sentinel when nothing passes
(lines 114-117), run the Phase A best-match search, then rank by MSE to the
best image (Phase B) and return the success tuple. -/
def generate_and_filter_images (ssimF : Image → Image → ℚ)
    (smoothed : List Image) (obs_dataset : List Image)
    (lo hi threshold : ℚ) (num_images : ℕ) : PipeOutput :=
  let filtered := filter_loop threshold lo hi smoothed
  if filtered.length = 0 then PipeOutput.noResult
  else
    let st := phase_a ssimF filtered obs_dataset
    match st.best_generated_image, st.best_obs_image, st.best_obs_index with
    | some bg, some bo, some bj =>
        let ranked := phase_b bg filtered num_images
        PipeOutput.success
          { filtered_generated_images := filtered
            best_generated_image := bg
            best_obs_image := bo
            best_obs_index := bj
            lowest_mse := st.lowest_mse
            top_images := ranked.2
            top_mses := ranked.1 }
    | _, _, _ => PipeOutput.crash

/-! Section: Helper lemmas -/

lemma foldl_filter_acc (p : Image → Bool) (f : Image → Image) :
    ∀ (s : List Image) (acc : List Image),
      s.foldl (fun acc img => if p (f img) then acc ++ [f img] else acc) acc
        = acc ++ (s.map f).filter p := by
  intro s
  induction s with
  | nil => simp
  | cons a tl ih =>
      intro acc
      by_cases h : p (f a) <;>
        simp [List.foldl_cons, h, ih, List.append_assoc]

/-- The generation loop is the ratio filter applied to the binarized images,
in generation order. -/
lemma filter_loop_eq (t lo hi : ℚ) (smoothed : List Image) :
    filter_loop t lo hi smoothed
      = (smoothed.map (binarize t)).filter (ratio_in_range lo hi) := by
  have h := foldl_filter_acc (ratio_in_range lo hi) (binarize t) smoothed []
  simpa [filter_loop] using h

lemma ratio_in_range_iff (lo hi : ℚ) (b : Image) :
    ratio_in_range lo hi b = true ↔ lo ≤ pixel_ratio b ∧ pixel_ratio b ≤ hi := by
  simp [ratio_in_range]

lemma mem_filter_loop (t lo hi : ℚ) (smoothed : List Image) (b : Image) :
    b ∈ filter_loop t lo hi smoothed
      ↔ b ∈ smoothed.map (binarize t) ∧ lo ≤ pixel_ratio b ∧ pixel_ratio b ≤ hi := by
  rw [filter_loop_eq, List.mem_filter, ratio_in_range_iff]

lemma zip_map_self {α β : Type} (f : α → β) (l : List α) :
    (l.map f).zip l = l.map (fun x => (f x, x)) := by
  induction l with
  | nil => rfl
  | cons a tl ih => simp [ih]

/-- Evaluation helper: the pixel ratio from concrete pixel counts. -/
lemma pixel_ratio_eval (b : Image) (a n : ℕ) (ha : active_pixels b = a)
    (hn : total_pixels b = n) : pixel_ratio b = (a : ℚ) / (n : ℚ) * 100 := by
  rw [pixel_ratio, ha, hn]

/-- A run whose candidates all binarize to themselves and all pass the ratio
test filters to the identical list. -/
lemma filter_loop_eq_self (t lo hi : ℚ) (s : List Image)
    (hbin : ∀ img ∈ s, binarize t img = img)
    (hpass : ∀ img ∈ s, lo ≤ pixel_ratio img ∧ pixel_ratio img ≤ hi) :
    filter_loop t lo hi s = s := by
  rw [filter_loop_eq]
  have hmap : s.map (binarize t) = s := by
    rw [List.map_congr_left hbin]
    exact List.map_id s
  rw [hmap]
  apply List.filter_eq_self.mpr
  intro b hb
  rw [ratio_in_range_iff]
  exact hpass b hb

/-! Section: Claim theorems: filtering stage -/

/-- C2: every image placed in the filtered set has pixel ratio within
[lo, hi], inclusive on both ends, where the pixel ratio is 100 times the
count of binarized pixels equal to 1 over the total pixel count; every
binarized candidate whose ratio falls outside the range is excluded. -/
theorem filtered_ratio_invariant (t lo hi : ℚ) (smoothed : List Image) :
    (∀ b ∈ filter_loop t lo hi smoothed,
        lo ≤ pixel_ratio b ∧ pixel_ratio b ≤ hi) ∧
    (∀ img ∈ smoothed,
        ¬(lo ≤ pixel_ratio (binarize t img) ∧ pixel_ratio (binarize t img) ≤ hi) →
          binarize t img ∉ filter_loop t lo hi smoothed) ∧
    (∀ b : Image,
        pixel_ratio b = 100 * (active_pixels b : ℚ) / (total_pixels b : ℚ)) := by
  refine ⟨?_, ?_, ?_⟩
  · intro b hb
    exact ((mem_filter_loop t lo hi smoothed b).1 hb).2
  · intro img _ hout hcontra
    exact hout ((mem_filter_loop t lo hi smoothed _).1 hcontra).2
  · intro b
    unfold pixel_ratio
    ring

/-- Witness for C2 at a concrete input: a single all-ones 1 by 1 image has
pixel ratio 100, outside the range [0, 50], so it is excluded. -/
theorem filtered_ratio_invariant_witness :
    ¬((0:ℚ) ≤ pixel_ratio (binarize 1 [[1]])
        ∧ pixel_ratio (binarize 1 [[1]]) ≤ 50) ∧
    binarize 1 [[1]] ∉ filter_loop 1 0 50 [[[1]]] := by
  have hout : ¬((0:ℚ) ≤ pixel_ratio (binarize 1 [[1]])
      ∧ pixel_ratio (binarize 1 [[1]]) ≤ 50) := by
    rw [pixel_ratio_eval (binarize 1 [[1]]) 1 1 (by decide) (by decide)]
    norm_num
  exact ⟨hout,
    (filtered_ratio_invariant 1 0 50 [[[1]]]).2.1 [[1]] (by decide) hout⟩

/-- C4: when no binarized candidate has pixel ratio within the requested
range, the pipeline returns the no-result sentinel, for every SSIM scorer:
neither Phase A nor Phase B can influence the outcome. -/
theorem empty_filter_sentinel (ssimF : Image → Image → ℚ)
    (smoothed obs_dataset : List Image) (lo hi t : ℚ) (k : ℕ)
    (h : ∀ img ∈ smoothed,
        ¬(lo ≤ pixel_ratio (binarize t img)
            ∧ pixel_ratio (binarize t img) ≤ hi)) :
    generate_and_filter_images ssimF smoothed obs_dataset lo hi t k
      = PipeOutput.noResult := by
  have hempty : filter_loop t lo hi smoothed = [] := by
    rw [filter_loop_eq]
    apply List.filter_eq_nil_iff.mpr
    intro b hb
    rcases List.mem_map.1 hb with ⟨img, him, rfl⟩
    rw [Bool.not_eq_true, ← Bool.not_eq_true, ratio_in_range_iff]
    exact h img him
  unfold generate_and_filter_images
  simp [hempty]

/-- Witness for C4: the range (101, 102) excludes the single all-zero
candidate, so the sentinel is returned. -/
theorem empty_filter_sentinel_witness :
    generate_and_filter_images (fun _ _ => 0) [[[0]]] [[[0]]] 101 102 1 10
      = PipeOutput.noResult := by
  apply empty_filter_sentinel
  intro img him
  have : img = [[(0:ℚ)]] := by simpa using him
  subst this
  rw [pixel_ratio_eval (binarize 1 [[0]]) 0 1 (by decide) (by decide)]
  norm_num

/-- C5: binarization preserves the shape of the smoothed image, every output
pixel is 1 exactly when the corresponding smoothed pixel reaches the
threshold and 0 otherwise, so the output is 0/1 valued, and a threshold
outside the data range yields an all-0 or all-1 image. -/
theorem binarize_spec (t : ℚ) (img : Image) :
    (binarize t img).map List.length = img.map List.length ∧
    (∀ row ∈ binarize t img, ∀ x ∈ row, x = 0 ∨ x = 1) ∧
    (∀ i j : ℕ, i < img.length → j < (img.getD i []).length →
        ((binarize t img).getD i []).getD j 0
          = if t ≤ (img.getD i []).getD j 0 then 1 else 0) ∧
    ((∀ row ∈ img, ∀ x ∈ row, x < t) →
        binarize t img = img.map (fun row => row.map (fun _ => 0))) ∧
    ((∀ row ∈ img, ∀ x ∈ row, t ≤ x) →
        binarize t img = img.map (fun row => row.map (fun _ => 1))) := by
  refine ⟨?_, ?_, ?_, ?_, ?_⟩
  · simp [binarize]
  · intro row hrow x hx
    rcases List.mem_map.1 hrow with ⟨r, _, rfl⟩
    rcases List.mem_map.1 hx with ⟨y, _, rfl⟩
    by_cases h : t ≤ y <;> simp [h]
  · intro i j hi hj
    have hb : i < (binarize t img).length := by simpa [binarize] using hi
    rw [List.getD_eq_getElem _ _ hb, List.getD_eq_getElem _ _ hi] at *
    simp only [binarize, List.getElem_map]
    have hj2 : j < (img[i].map (fun x => if t ≤ x then (1:ℚ) else 0)).length := by
      simpa using hj
    rw [List.getD_eq_getElem _ _ hj2, List.getD_eq_getElem _ _ (by simpa using hj)]
    simp
  · intro h
    unfold binarize
    apply List.map_congr_left
    intro r hr
    apply List.map_congr_left
    intro y hy
    simp [not_le.mpr (h r hr y hy)]
  · intro h
    unfold binarize
    apply List.map_congr_left
    intro r hr
    apply List.map_congr_left
    intro y hy
    simp [h r hr y hy]

/-- Witness for C5: a pixel at the threshold binarizes to 1, a threshold
above all data yields the all-0 image, one below all data the all-1 image. -/
theorem binarize_spec_witness :
    ((binarize 1 [[0, 1]]).getD 0 []).getD 1 0 = 1 ∧
    binarize 2 [[0, 1]] = [[0, 0]] ∧
    binarize (-1) [[0, 1]] = [[1, 1]] := by
  refine ⟨?_, ?_, ?_⟩
  · have h := (binarize_spec 1 [[0, 1]]).2.2.1 0 1 (by decide) (by decide)
    rw [h]
    decide
  · have h := (binarize_spec 2 [[0, 1]]).2.2.2.1 (by decide)
    rw [h]
    decide
  · have h := (binarize_spec (-1) [[0, 1]]).2.2.2.2 (by decide)
    rw [h]
    decide

/-- C6: the filtered set is the ordered subsequence of the binarized
candidates passing the pixel-ratio test, and the three candidates with pixel
ratios 6, 10 and 13 percent are all retained in original order under the
range (5, 14). -/
theorem filter_preserves_order :
    (∀ (t lo hi : ℚ) (smoothed : List Image),
        (filter_loop t lo hi smoothed).Sublist (smoothed.map (binarize t))) ∧
    filter_loop 1 5 14
        [[List.replicate 6 (1:ℚ) ++ List.replicate 94 0],
         [List.replicate 10 (1:ℚ) ++ List.replicate 90 0],
         [List.replicate 13 (1:ℚ) ++ List.replicate 87 0]]
      = [[List.replicate 6 (1:ℚ) ++ List.replicate 94 0],
         [List.replicate 10 (1:ℚ) ++ List.replicate 90 0],
         [List.replicate 13 (1:ℚ) ++ List.replicate 87 0]] := by
  constructor
  · intro t lo hi smoothed
    rw [filter_loop_eq]
    exact List.filter_sublist _
  · apply filter_loop_eq_self
    · intro img him
      simp only [List.mem_cons, List.not_mem_nil, or_false] at him
      rcases him with rfl | rfl | rfl <;> decide
    · intro img him
      simp only [List.mem_cons, List.not_mem_nil, or_false] at him
      rcases him with rfl | rfl | rfl
      · rw [pixel_ratio_eval _ 6 100 (by decide) (by decide)]
        norm_num
      · rw [pixel_ratio_eval _ 10 100 (by decide) (by decide)]
        norm_num
      · rw [pixel_ratio_eval _ 13 100 (by decide) (by decide)]
        norm_num

/-- C8: the ratio filter is idempotent, both as a standalone component and on
the filtered output of the pipeline itself. -/
theorem ratio_filter_idempotent :
    (∀ (lo hi : ℚ) (bins : List Image),
        ratio_filter lo hi (ratio_filter lo hi bins) = ratio_filter lo hi bins) ∧
    (∀ (t lo hi : ℚ) (smoothed : List Image),
        ratio_filter lo hi (filter_loop t lo hi smoothed)
          = filter_loop t lo hi smoothed) := by
  have hmain : ∀ (lo hi : ℚ) (bins : List Image),
      ratio_filter lo hi (ratio_filter lo hi bins) = ratio_filter lo hi bins := by
    intro lo hi bins
    unfold ratio_filter
    apply List.filter_eq_self.mpr
    intro b hb
    exact (List.mem_filter.1 hb).2
  refine ⟨hmain, ?_⟩
  intro t lo hi smoothed
  rw [filter_loop_eq]
  exact hmain lo hi (smoothed.map (binarize t))

/-! Section: Phase A: the best-match search -/

/-- C1: in Phase A the running best candidate is replaced exactly when the
MSE of the pair is strictly below the current lowest and its SSIM strictly above
the current highest, simultaneously; in every other case, in particular when
the MSE is lower but the SSIM not higher, the state is unchanged. -/
theorem phase_a_update_iff (ssimF : Image → Image → ℚ) (st : MatchState)
    (gen obs : Image) (j : ℕ) :
    (((mean_squared_error obs gen : WithTop ℚ) < st.lowest_mse
        ∧ st.highest_ssim < ssimF obs gen) →
      phase_a_step ssimF st gen j obs =
        { lowest_mse := (mean_squared_error obs gen : WithTop ℚ)
          highest_ssim := ssimF obs gen
          best_generated_image := some gen
          best_obs_image := some obs
          best_obs_index := some j }) ∧
    (¬((mean_squared_error obs gen : WithTop ℚ) < st.lowest_mse
        ∧ st.highest_ssim < ssimF obs gen) →
      phase_a_step ssimF st gen j obs = st) := by
  constructor
  · intro h
    simp only [phase_a_step]
    rw [if_pos h]
  · intro h
    simp only [phase_a_step]
    rw [if_neg h]

/-- Witness for C1: a candidate pair whose MSE (equal to 1) is strictly below
the current lowest (equal to 5) but whose SSIM (equal to 0) is not above the
current highest (equal to 1) leaves the best unchanged. -/
theorem phase_a_update_iff_witness :
    (mean_squared_error [[0]] [[1]] : WithTop ℚ)
        < (⟨((5:ℚ) : WithTop ℚ), 1, some [[1]], some [[1]], some 0⟩ :
            MatchState).lowest_mse ∧
    ¬((1:ℚ) < 0) ∧
    phase_a_step (fun _ _ => 0)
        ⟨((5:ℚ) : WithTop ℚ), 1, some [[1]], some [[1]], some 0⟩ [[1]] 0 [[0]]
      = ⟨((5:ℚ) : WithTop ℚ), 1, some [[1]], some [[1]], some 0⟩ := by
  have hmse : mean_squared_error [[0]] [[1]] = 1 := by
    simp [mean_squared_error, flat_pixels]
  refine ⟨?_, by norm_num, ?_⟩
  · rw [hmse]
    exact WithTop.coe_lt_coe.mpr (by norm_num)
  · apply (phase_a_update_iff (fun _ _ => 0)
      ⟨((5:ℚ) : WithTop ℚ), 1, some [[1]], some [[1]], some 0⟩ [[1]] [[0]] 0).2
    rintro ⟨-, hssim⟩
    exact absurd hssim (by norm_num)

/-- A membership-aware foldl invariant: a property preserved by every step
taken on a member of the list is carried from the start state to the end. -/
lemma foldl_pres_mem {α : Type} (P : MatchState → Prop)
    (f : MatchState → α → MatchState) :
    ∀ (l : List α), (∀ st x, x ∈ l → P st → P (f st x)) →
      ∀ st, P st → P (l.foldl f st)
  | [], _, _, h => h
  | a :: tl, hf, st, h => by
      rw [List.foldl_cons]
      exact foldl_pres_mem P f tl
        (fun st x hx => hf st x (List.mem_cons_of_mem a hx))
        (f st a) (hf st a (List.mem_cons_self a tl) h)

/-- A foldl reachability lemma: if P is preserved, Q is preserved, and some
member of the list turns any P-state into a Q-state, then the fold of a
P-state satisfies Q. -/
lemma foldl_reach {α : Type} (P Q : MatchState → Prop)
    (f : MatchState → α → MatchState)
    (hP : ∀ st x, P st → P (f st x)) (hQ : ∀ st x, Q st → Q (f st x)) :
    ∀ (l : List α) (x : α), x ∈ l → (∀ st, P st → Q (f st x)) →
      ∀ st, P st → Q (l.foldl f st)
  | [], x, hx, _, _, _ => absurd hx (List.not_mem_nil x)
  | a :: tl, x, hx, htrig, st, hst => by
      rw [List.foldl_cons]
      rcases List.mem_cons.1 hx with rfl | hmem
      · exact foldl_pres_mem Q f tl (fun st y _ => hQ st y) (f st x)
          (htrig st hst)
      · exact foldl_reach P Q f hP hQ tl x hmem htrig (f st a) (hP st a hst)

/-- The three best references of a Phase A state are all set. -/
abbrev refs_set (st : MatchState) : Prop :=
  st.best_generated_image.isSome ∧ st.best_obs_image.isSome
    ∧ st.best_obs_index.isSome

/-- The Phase A state invariant: while the best references are unset the
sentinels are untouched, and the three references are set or unset together. -/
abbrev phase_a_inv (st : MatchState) : Prop :=
  (st.best_generated_image = none →
      st.highest_ssim = -1 ∧ st.lowest_mse = ⊤) ∧
  (st.best_generated_image = none ∨ refs_set st)

/-- One Phase A step either leaves the state alone or installs the update. -/
lemma phase_a_step_cases (ssimF : Image → Image → ℚ) (st : MatchState)
    (gen obs : Image) (j : ℕ) :
    phase_a_step ssimF st gen j obs = st ∨
    phase_a_step ssimF st gen j obs =
      { lowest_mse := (mean_squared_error obs gen : WithTop ℚ)
        highest_ssim := ssimF obs gen
        best_generated_image := some gen
        best_obs_image := some obs
        best_obs_index := some j } := by
  simp only [phase_a_step]
  split
  · right
    rfl
  · left
    rfl

lemma refs_set_step (ssimF : Image → Image → ℚ) (st : MatchState)
    (gen obs : Image) (j : ℕ) (h : refs_set st) :
    refs_set (phase_a_step ssimF st gen j obs) := by
  rcases phase_a_step_cases ssimF st gen obs j with hc | hc <;> rw [hc]
  · exact h
  · exact ⟨rfl, rfl, rfl⟩

lemma phase_a_inv_step (ssimF : Image → Image → ℚ) (st : MatchState)
    (gen obs : Image) (j : ℕ) (h : phase_a_inv st) :
    phase_a_inv (phase_a_step ssimF st gen j obs) := by
  rcases phase_a_step_cases ssimF st gen obs j with hc | hc <;> rw [hc]
  · exact h
  · exact ⟨(fun hnone => nomatch hnone), Or.inr ⟨rfl, rfl, rfl⟩⟩

lemma phase_a_inv_init : phase_a_inv init_match_state :=
  ⟨fun _ => ⟨rfl, rfl⟩, Or.inl rfl⟩

/-- On a state obeying the invariant, a pair whose SSIM is strictly above -1
forces the best references to be set afterwards. -/
lemma step_refs_of_inv (ssimF : Image → Image → ℚ) (st : MatchState)
    (gen obs : Image) (j : ℕ) (hinv : phase_a_inv st)
    (hssim : -1 < ssimF obs gen) :
    refs_set (phase_a_step ssimF st gen j obs) := by
  rcases hinv.2 with hnone | hset
  · obtain ⟨h1, h2⟩ := hinv.1 hnone
    simp only [phase_a_step]
    rw [if_pos ⟨by rw [h2]; exact WithTop.coe_lt_top _, by rw [h1]; exact hssim⟩]
    exact ⟨rfl, rfl, rfl⟩
  · exact refs_set_step ssimF st gen obs j hset

/-- When the SSIM value of the processed pair is at most -1 the initial state
is a fixed point of the Phase A step. -/
lemma step_id_of_ssim_le (ssimF : Image → Image → ℚ) (gen obs : Image)
    (j : ℕ) (h : ssimF obs gen ≤ -1) :
    phase_a_step ssimF init_match_state gen j obs = init_match_state := by
  simp only [phase_a_step]
  rw [if_neg]
  rintro ⟨-, h2⟩
  exact absurd h2 (not_lt.mpr h)

/-- When every compared pair scores SSIM at most -1, Phase A never leaves the
initial state. -/
lemma phase_a_all_low (ssimF : Image → Image → ℚ)
    (filtered obs_dataset : List Image)
    (h : ∀ g ∈ filtered, ∀ o ∈ obs_dataset, ssimF o g ≤ -1) :
    phase_a ssimF filtered obs_dataset = init_match_state := by
  unfold phase_a
  apply foldl_pres_mem (fun st => st = init_match_state) _ filtered _
    init_match_state rfl
  intro st gen hgen hst
  subst hst
  unfold phase_a_inner
  apply foldl_pres_mem (fun st => st = init_match_state) _ _ _
    init_match_state rfl
  intro st2 j hj hst2
  subst hst2
  apply step_id_of_ssim_le
  have hjlen : j < obs_dataset.length := List.mem_range.1 hj
  have : obs_dataset.getD j [] ∈ obs_dataset := by
    rw [List.getD_eq_getElem _ _ hjlen]
    exact List.getElem_mem hjlen
  exact h gen hgen _ this

/-- When some compared pair scores SSIM strictly above -1, Phase A ends with
all three best references set. -/
lemma phase_a_sets (ssimF : Image → Image → ℚ)
    (filtered obs_dataset : List Image)
    (h : ∃ g ∈ filtered, ∃ o ∈ obs_dataset, -1 < ssimF o g) :
    refs_set (phase_a ssimF filtered obs_dataset) := by
  obtain ⟨g, hg, o, ho, hlt⟩ := h
  obtain ⟨j, hjlen, hjo⟩ := List.getElem_of_mem ho
  have hinner_inv : ∀ (gen : Image) (st : MatchState), phase_a_inv st →
      phase_a_inv (phase_a_inner ssimF obs_dataset gen st) := by
    intro gen st hst
    unfold phase_a_inner
    apply foldl_pres_mem phase_a_inv _ _ _ st hst
    intro st2 j2 _ h2
    exact phase_a_inv_step ssimF st2 gen _ j2 h2
  have hinner_refs : ∀ (gen : Image) (st : MatchState), refs_set st →
      refs_set (phase_a_inner ssimF obs_dataset gen st) := by
    intro gen st hst
    unfold phase_a_inner
    apply foldl_pres_mem refs_set _ _ _ st hst
    intro st2 j2 _ h2
    exact refs_set_step ssimF st2 gen _ j2 h2
  unfold phase_a
  apply foldl_reach phase_a_inv refs_set _
    (fun st gen => hinner_inv gen st) (fun st gen => hinner_refs gen st)
    filtered g hg _ init_match_state phase_a_inv_init
  intro st hst
  unfold phase_a_inner
  apply foldl_reach phase_a_inv refs_set _
    (fun st2 j2 h2 => phase_a_inv_step ssimF st2 g _ j2 h2)
    (fun st2 j2 h2 => refs_set_step ssimF st2 g _ j2 h2)
    (List.range obs_dataset.length) j (List.mem_range.2 hjlen) _ st hst
  intro st2 hst2
  apply step_refs_of_inv ssimF st2 g _ j hst2
  rw [List.getD_eq_getElem _ _ hjlen, hjo]
  exact hlt

/-- C7: Phase A starts from lowest MSE infinity, highest SSIM -1, and unset
best references; on a non-empty filtered set, if every computed SSIM value is
at most -1 the best references stay unset and the later dereference of the
best generated image turns the run into a crash, while if some compared pair
scores strictly above -1 the references are set after Phase A. -/
theorem phase_a_init_and_unset (ssimF : Image → Image → ℚ)
    (smoothed obs_dataset : List Image) (lo hi t : ℚ) (k : ℕ) :
    init_match_state =
      { lowest_mse := ⊤
        highest_ssim := -1
        best_generated_image := none
        best_obs_image := none
        best_obs_index := none } ∧
    (filter_loop t lo hi smoothed ≠ [] →
      ((∀ g ∈ filter_loop t lo hi smoothed, ∀ o ∈ obs_dataset,
          ssimF o g ≤ -1) →
        phase_a ssimF (filter_loop t lo hi smoothed) obs_dataset
            = init_match_state ∧
        generate_and_filter_images ssimF smoothed obs_dataset lo hi t k
            = PipeOutput.crash) ∧
      ((∃ g ∈ filter_loop t lo hi smoothed, ∃ o ∈ obs_dataset,
          -1 < ssimF o g) →
        refs_set (phase_a ssimF (filter_loop t lo hi smoothed) obs_dataset))) := by
  refine ⟨rfl, fun hne => ⟨?_, ?_⟩⟩
  · intro hall
    have h1 := phase_a_all_low ssimF (filter_loop t lo hi smoothed)
      obs_dataset hall
    refine ⟨h1, ?_⟩
    simp only [generate_and_filter_images]
    rw [if_neg (fun hh => hne (List.length_eq_zero.1 hh)), h1]
    rfl
  · intro hex
    exact phase_a_sets ssimF (filter_loop t lo hi smoothed) obs_dataset hex

/-- Witness for C7: on the one-image run, a constant SSIM of -1 leaves the
state initial and the run crashes; a constant SSIM of 0 sets the references. -/
theorem phase_a_init_and_unset_witness :
    (phase_a (fun _ _ => -1) (filter_loop 1 0 100 [[[1]]]) [[[0]]]
        = init_match_state ∧
     generate_and_filter_images (fun _ _ => -1) [[[1]]] [[[0]]] 0 100 1 10
        = PipeOutput.crash) ∧
    refs_set (phase_a (fun _ _ => 0) (filter_loop 1 0 100 [[[1]]]) [[[0]]]) := by
  have hfl : filter_loop 1 0 100 [[[1]]] = [[[1]]] := by
    apply filter_loop_eq_self
    · intro img him
      simp only [List.mem_cons, List.not_mem_nil, or_false] at him
      subst him
      decide
    · intro img him
      simp only [List.mem_cons, List.not_mem_nil, or_false] at him
      subst him
      rw [pixel_ratio_eval _ 1 1 (by decide) (by decide)]
      norm_num
  have hne : filter_loop 1 0 100 [[[1]]] ≠ [] := by
    rw [hfl]
    simp
  constructor
  · exact ((phase_a_init_and_unset (fun _ _ => -1) [[[1]]] [[[0]]]
      0 100 1 10).2 hne).1 (fun g _ o _ => le_refl _)
  · apply ((phase_a_init_and_unset (fun _ _ => 0) [[[1]]] [[[0]]]
      0 100 1 10).2 hne).2
    refine ⟨[[1]], ?_, [[0]], by simp, by norm_num⟩
    rw [hfl]
    simp

/-- Consistency of a Phase A state: whenever the three best references are
set, the best generated image comes from the filtered set, the index is a
valid observation index holding the best observation image, and the lowest
MSE is the MSE of that stored pair. -/
def consistent (obs_dataset filtered : List Image) (st : MatchState) : Prop :=
  ∀ g o j, st.best_generated_image = some g → st.best_obs_image = some o →
    st.best_obs_index = some j →
      g ∈ filtered ∧ j < obs_dataset.length ∧ o = obs_dataset.getD j []
        ∧ st.lowest_mse = ((mean_squared_error o g : ℚ) : WithTop ℚ)

lemma consistent_step (ssimF : Image → Image → ℚ)
    (obs_dataset filtered : List Image) (st : MatchState) (gen : Image)
    (j : ℕ) (h : consistent obs_dataset filtered st) (hgen : gen ∈ filtered)
    (hj : j < obs_dataset.length) :
    consistent obs_dataset filtered
      (phase_a_step ssimF st gen j (obs_dataset.getD j [])) := by
  rcases phase_a_step_cases ssimF st gen (obs_dataset.getD j []) j
    with hc | hc <;> rw [hc]
  · exact h
  · intro g o j2 h1 h2 h3
    obtain rfl := Option.some.inj h1
    obtain rfl := Option.some.inj h2
    obtain rfl := Option.some.inj h3
    exact ⟨hgen, hj, rfl, rfl⟩

lemma consistent_phase_a (ssimF : Image → Image → ℚ)
    (filtered obs_dataset : List Image) :
    consistent obs_dataset filtered (phase_a ssimF filtered obs_dataset) := by
  unfold phase_a
  apply foldl_pres_mem (consistent obs_dataset filtered) _ filtered _
    init_match_state (fun g o j h1 => nomatch h1)
  intro st gen hgen hst
  unfold phase_a_inner
  apply foldl_pres_mem (consistent obs_dataset filtered) _ _ _ st hst
  intro st2 j hj h2
  exact consistent_step ssimF obs_dataset filtered st2 gen j h2 hgen
    (List.mem_range.1 hj)

/-- Inversion of a successful run: the returned record is built from the
filtered list, the Phase A state with its three references set, and the
Phase B ranking. -/
lemma success_inversion (ssimF : Image → Image → ℚ)
    (smoothed obs_dataset : List Image) (lo hi t : ℚ) (k : ℕ)
    (d : SuccessData)
    (h : generate_and_filter_images ssimF smoothed obs_dataset lo hi t k
        = PipeOutput.success d) :
    ∃ bg bo bj,
      (phase_a ssimF (filter_loop t lo hi smoothed)
          obs_dataset).best_generated_image = some bg ∧
      (phase_a ssimF (filter_loop t lo hi smoothed)
          obs_dataset).best_obs_image = some bo ∧
      (phase_a ssimF (filter_loop t lo hi smoothed)
          obs_dataset).best_obs_index = some bj ∧
      d = { filtered_generated_images := filter_loop t lo hi smoothed
            best_generated_image := bg
            best_obs_image := bo
            best_obs_index := bj
            lowest_mse := (phase_a ssimF (filter_loop t lo hi smoothed)
              obs_dataset).lowest_mse
            top_images :=
              (phase_b bg (filter_loop t lo hi smoothed) k).2
            top_mses :=
              (phase_b bg (filter_loop t lo hi smoothed) k).1 } := by
  simp only [generate_and_filter_images] at h
  by_cases hlen : (filter_loop t lo hi smoothed).length = 0
  · rw [if_pos hlen] at h
    exact absurd h (by simp)
  · rw [if_neg hlen] at h
    split at h
    · rename_i bg bo bj heq1 heq2 heq3
      obtain rfl := (PipeOutput.success.inj h)
      exact ⟨bg, bo, bj, heq1, heq2, heq3, rfl⟩
    · exact absurd h (by simp)

/-- C9: on a successful run the returned record is internally consistent:
the best observation image sits at the returned index in the observation
dataset, the returned lowest MSE is the MSE of the returned best pair, and
the best generated image belongs to the returned filtered set. -/
theorem success_consistency (ssimF : Image → Image → ℚ)
    (smoothed obs_dataset : List Image) (lo hi t : ℚ) (k : ℕ)
    (d : SuccessData)
    (h : generate_and_filter_images ssimF smoothed obs_dataset lo hi t k
        = PipeOutput.success d) :
    d.best_generated_image ∈ d.filtered_generated_images ∧
    d.best_obs_index < obs_dataset.length ∧
    d.best_obs_image = obs_dataset.getD d.best_obs_index [] ∧
    d.lowest_mse
      = ((mean_squared_error d.best_obs_image d.best_generated_image : ℚ)
          : WithTop ℚ) := by
  obtain ⟨bg, bo, bj, h1, h2, h3, rfl⟩ :=
    success_inversion ssimF smoothed obs_dataset lo hi t k d h
  obtain ⟨hmem, hjlen, hobs, hmse⟩ :=
    consistent_phase_a ssimF (filter_loop t lo hi smoothed) obs_dataset
      bg bo bj h1 h2 h3
  exact ⟨hmem, hjlen, hobs, hmse⟩

/-! Section: Phase B: ranking by distance to the best image -/

lemma phase_b_pairs (best : Image) (filtered : List Image) :
    (filtered.map (fun g => mean_squared_error best g)).zip filtered
      = filtered.map (fun g => (mean_squared_error best g, g)) :=
  zip_map_self (fun g => mean_squared_error best g) filtered

lemma phase_b_sorted_pairs (best : Image) (filtered : List Image) :
    List.Sorted mse_le
      (((filtered.map (fun g => mean_squared_error best g)).zip
        filtered).insertionSort mse_le) :=
  List.sorted_insertionSort mse_le _

lemma phase_b_perm (best : Image) (filtered : List Image) :
    List.Perm
      (((filtered.map (fun g => mean_squared_error best g)).zip
        filtered).insertionSort mse_le)
      (filtered.map (fun g => (mean_squared_error best g, g))) := by
  rw [← phase_b_pairs]
  exact List.perm_insertionSort mse_le _

lemma phase_b_mem_fst (best : Image) (filtered : List Image)
    (p : ℚ × Image)
    (hp : p ∈ ((filtered.map (fun g => mean_squared_error best g)).zip
        filtered).insertionSort mse_le) :
    p.1 = mean_squared_error best p.2 ∧ p.2 ∈ filtered := by
  have hmem := (phase_b_perm best filtered).mem_iff.1 hp
  rcases List.mem_map.1 hmem with ⟨g, hg, rfl⟩
  exact ⟨rfl, hg⟩

lemma phase_b_length (best : Image) (filtered : List Image) :
    (((filtered.map (fun g => mean_squared_error best g)).zip
        filtered).insertionSort mse_le).length = filtered.length := by
  rw [List.length_insertionSort, phase_b_pairs, List.length_map]

/-- C3: on a successful run, the returned top MSE list is sorted ascending,
both ranked lists have length exactly min of the requested count and the
filtered count, each ranked MSE is the MSE of the corresponding ranked image
against the Phase A best generated image, and the default requested count is
10. -/
theorem phase_b_ranking (ssimF : Image → Image → ℚ)
    (smoothed obs_dataset : List Image) (lo hi t : ℚ) (k : ℕ)
    (d : SuccessData)
    (h : generate_and_filter_images ssimF smoothed obs_dataset lo hi t k
        = PipeOutput.success d) :
    d.top_mses.Sorted (· ≤ ·) ∧
    d.top_mses.length = min k d.filtered_generated_images.length ∧
    d.top_images.length = min k d.filtered_generated_images.length ∧
    d.top_mses = d.top_images.map
      (fun g => mean_squared_error d.best_generated_image g) ∧
    num_images_default = 10 := by
  obtain ⟨bg, bo, bj, h1, h2, h3, rfl⟩ :=
    success_inversion ssimF smoothed obs_dataset lo hi t k d h
  simp only [phase_b]
  set filtered := filter_loop t lo hi smoothed with hf
  set sorted := ((filtered.map
      (fun g => mean_squared_error bg g)).zip filtered).insertionSort mse_le
    with hs
  refine ⟨?_, ?_, ?_, ?_, rfl⟩
  · have hsor : (sorted.take k).Pairwise mse_le :=
      (phase_b_sorted_pairs bg filtered).sublist (List.take_sublist k sorted)
    exact hsor.map Prod.fst (fun a b hab => hab)
  · rw [List.length_map, List.length_take, phase_b_length]
  · rw [List.length_map, List.length_take, phase_b_length]
  · rw [List.map_map]
    apply List.map_congr_left
    intro p hp
    exact (phase_b_mem_fst bg filtered p
      ((List.take_subset k sorted) hp)).1

/-! Section: MSE facts needed for the top entry of the ranking -/

lemma zip_self {α : Type} (l : List α) :
    l.zip l = l.map (fun x => (x, x)) := by
  induction l with
  | nil => rfl
  | cons a tl ih => simp [ih]

lemma mse_self (a : Image) : mean_squared_error a a = 0 := by
  unfold mean_squared_error
  rw [zip_self, List.map_map]
  have : ((flat_pixels a).map ((fun p : ℚ × ℚ => (p.1 - p.2) ^ 2)
      ∘ fun x => (x, x))).sum = 0 := by
    apply List.sum_eq_zero
    intro x hx
    rcases List.mem_map.1 hx with ⟨y, _, rfl⟩
    simp
  rw [this, zero_div]

lemma mse_nonneg (a b : Image) : 0 ≤ mean_squared_error a b := by
  unfold mean_squared_error
  apply div_nonneg
  · apply List.sum_nonneg
    intro x hx
    rcases List.mem_map.1 hx with ⟨p, _, rfl⟩
    positivity
  · exact Nat.cast_nonneg _

lemma sum_nonneg_zero (l : List ℚ) (hn : ∀ x ∈ l, 0 ≤ x) (h : l.sum = 0) :
    ∀ x ∈ l, x = 0 := by
  induction l with
  | nil => intro x hx; exact absurd hx (List.not_mem_nil x)
  | cons a tl ih =>
      rw [List.sum_cons] at h
      have ha : 0 ≤ a := hn a (List.mem_cons_self a tl)
      have ht : 0 ≤ tl.sum :=
        List.sum_nonneg (fun x hx => hn x (List.mem_cons_of_mem a hx))
      have ha0 : a = 0 := le_antisymm (by linarith) ha
      have ht0 : tl.sum = 0 := by linarith
      intro x hx
      rcases List.mem_cons.1 hx with rfl | hmem
      · exact ha0
      · exact ih (fun y hy => hn y (List.mem_cons_of_mem a hy)) ht0 x hmem

lemma flat_pixels_length (a : Image) :
    (flat_pixels a).length = (a.map List.length).sum := by
  unfold flat_pixels
  induction a with
  | nil => rfl
  | cons r tl ih => simp [ih]

lemma pointwise_zip_eq (a : List ℚ) :
    ∀ (b : List ℚ), a.length = b.length →
      (∀ p ∈ a.zip b, p.1 = p.2) → a = b := by
  induction a with
  | nil =>
      intro b hlen _
      exact (List.length_eq_zero.1 hlen.symm).symm
  | cons x xs ih =>
      intro b hlen hp
      cases b with
      | nil => exact absurd hlen (by simp)
      | cons y ys =>
          have hx : x = y := hp (x, y) (by simp)
          have hxs : xs = ys := by
            apply ih ys (by simpa using hlen)
            intro p hmem
            exact hp p (List.mem_cons_of_mem _ hmem)
          rw [hx, hxs]

lemma eq_of_shape_flat (a : Image) :
    ∀ (b : Image), a.map List.length = b.map List.length →
      flat_pixels a = flat_pixels b → a = b := by
  induction a with
  | nil =>
      intro b hs _
      have : b.map List.length = [] := hs.symm
      exact (List.map_eq_nil_iff.1 this).symm
  | cons r ar ih =>
      intro b hs hf
      cases b with
      | nil => exact absurd hs (by simp)
      | cons s bs =>
          simp only [List.map_cons, List.cons.injEq] at hs
          have hflat : r ++ (flat_pixels ar) = s ++ (flat_pixels bs) := by
            simpa [flat_pixels] using hf
          obtain ⟨hr, har⟩ := List.append_inj hflat hs.1
          rw [hr, ih bs hs.2 har]

/-- On same-shaped images a vanishing MSE forces equality. -/
lemma mse_eq_zero (a b : Image)
    (hs : b.map List.length = a.map List.length)
    (h : mean_squared_error a b = 0) : b = a := by
  have hlen : (flat_pixels b).length = (flat_pixels a).length := by
    rw [flat_pixels_length, flat_pixels_length, hs]
  unfold mean_squared_error at h
  by_cases hn : (flat_pixels a).length = 0
  · have ha : flat_pixels a = [] := List.length_eq_zero.1 hn
    have hb : flat_pixels b = [] :=
      List.length_eq_zero.1 (by rw [hlen, hn])
    exact eq_of_shape_flat b a hs (hb.trans ha.symm)
  · have hc : ((flat_pixels a).length : ℚ) ≠ 0 := Nat.cast_ne_zero.2 hn
    have hS : (((flat_pixels a).zip (flat_pixels b)).map
        (fun p => (p.1 - p.2) ^ 2)).sum = 0 := by
      rcases div_eq_zero_iff.1 h with hS | hbad
      · exact hS
      · exact absurd hbad hc
    have hall := sum_nonneg_zero _
      (by
        intro x hx
        rcases List.mem_map.1 hx with ⟨p, _, rfl⟩
        positivity) hS
    have heq : flat_pixels a = flat_pixels b := by
      apply pointwise_zip_eq _ _ hlen.symm
      intro p hp
      have h0 := hall ((p.1 - p.2) ^ 2) (List.mem_map_of_mem _ hp)
      have : p.1 - p.2 = 0 := by
        simpa using h0
      linarith [this]
    exact eq_of_shape_flat b a hs heq.symm

/-- C10: on a successful run with at least one requested image and a
same-shaped filtered set, the first ranked entry is the Phase A best
generated image itself, at MSE exactly zero. -/
theorem top_entry_is_best (ssimF : Image → Image → ℚ)
    (smoothed obs_dataset : List Image) (lo hi t : ℚ) (k : ℕ)
    (d : SuccessData)
    (h : generate_and_filter_images ssimF smoothed obs_dataset lo hi t k
        = PipeOutput.success d)
    (hk : 1 ≤ k)
    (hshape : ∀ x ∈ d.filtered_generated_images,
        x.map List.length = d.best_generated_image.map List.length) :
    d.top_mses.head? = some 0 ∧
    d.top_images.head? = some d.best_generated_image := by
  obtain ⟨bg, bo, bj, h1, h2, h3, rfl⟩ :=
    success_inversion ssimF smoothed obs_dataset lo hi t k d h
  obtain ⟨hmem, -, -, -⟩ :=
    consistent_phase_a ssimF (filter_loop t lo hi smoothed) obs_dataset
      bg bo bj h1 h2 h3
  simp only [phase_b]
  set filtered := filter_loop t lo hi smoothed with hf
  set sorted := ((filtered.map
      (fun g => mean_squared_error bg g)).zip filtered).insertionSort mse_le
    with hsdef
  have hbg_pair : (mean_squared_error bg bg, bg) ∈ sorted := by
    rw [hsdef]
    apply (phase_b_perm bg filtered).mem_iff.2
    exact List.mem_map_of_mem _ hmem
  have hsne : sorted ≠ [] := List.ne_nil_of_mem hbg_pair
  obtain ⟨p, rest, hcons⟩ := List.exists_cons_of_ne_nil hsne
  have hsorted : List.Sorted mse_le sorted := phase_b_sorted_pairs bg filtered
  have hp_in : p ∈ sorted := by
    rw [hcons]
    exact List.mem_cons_self p rest
  obtain ⟨hp1, hp2⟩ := phase_b_mem_fst bg filtered p hp_in
  have hple : p.1 ≤ mean_squared_error bg bg := by
    rw [hcons] at hbg_pair
    rcases List.mem_cons.1 hbg_pair with heq | hmem2
    · rw [← heq]
    · have := List.rel_of_sorted_cons (hcons ▸ hsorted) _ hmem2
      exact this
  have hp1z : p.1 = 0 := by
    have h0 : mean_squared_error bg bg = 0 := mse_self bg
    rw [h0] at hple
    exact le_antisymm hple (hp1 ▸ mse_nonneg bg p.2)
  have hp2b : p.2 = bg := by
    apply mse_eq_zero bg p.2 (hshape p.2 hp2)
    rw [← hp1, hp1z]
  obtain ⟨k2, rfl⟩ : ∃ k2, k = k2 + 1 := by
    cases k with
    | zero => exact absurd hk (by norm_num)
    | succ n => exact ⟨n, rfl⟩
  rw [hcons, List.take_succ_cons]
  simp [hp1z, hp2b]

/-! Section: A concrete successful run, used by the witnesses -/

lemma run_filter_eval : filter_loop 1 0 100 [[[1]]] = [[[1]]] := by
  apply filter_loop_eq_self
  · intro img him
    simp only [List.mem_cons, List.not_mem_nil, or_false] at him
    subst him
    decide
  · intro img him
    simp only [List.mem_cons, List.not_mem_nil, or_false] at him
    subst him
    rw [pixel_ratio_eval _ 1 1 (by decide) (by decide)]
    norm_num

lemma run_phase_a_eval :
    phase_a (fun _ _ => 0) [[[1]]] [[[1]]]
      = ⟨((0:ℚ) : WithTop ℚ), 0, some [[1]], some [[1]], some 0⟩ := by
  have hm : mean_squared_error [[1]] [[1]] = 0 := mse_self [[1]]
  simp only [phase_a, phase_a_inner, List.length_cons, List.length_nil,
    zero_add, List.range_succ, List.range_zero, List.nil_append,
    List.foldl_cons, List.foldl_nil, List.getD_cons_zero]
  simp only [phase_a_step, hm, init_match_state]
  rw [if_pos ⟨WithTop.coe_lt_top 0, by norm_num⟩]

lemma run_phase_b_eval :
    phase_b [[1]] [[[1]]] 1 = ([0], [[[1]]]) := by
  simp [phase_b, mse_self]

lemma run_pipeline_eval :
    generate_and_filter_images (fun _ _ => 0) [[[1]]] [[[1]]] 0 100 1 1
      = PipeOutput.success
          { filtered_generated_images := [[[1]]]
            best_generated_image := [[1]]
            best_obs_image := [[1]]
            best_obs_index := 0
            lowest_mse := ((0:ℚ) : WithTop ℚ)
            top_images := [[[1]]]
            top_mses := [0] } := by
  simp only [generate_and_filter_images, run_filter_eval]
  rw [if_neg (by norm_num)]
  rw [run_phase_a_eval]
  simp only [run_phase_b_eval]

/-- Witness for C9 on the concrete one-image run: the best generated image is
in the filtered set, the index 0 is valid and holds the best observation
image, and the returned lowest MSE matches the MSE of the returned pair. -/
theorem success_consistency_witness :
    ([[1]] : Image) ∈ ([[[1]]] : List Image) ∧
    (0:ℕ) < 1 ∧
    ([[1]] : Image) = [[1]] ∧
    (((0:ℚ) : WithTop ℚ)
      = ((mean_squared_error [[1]] [[1]] : ℚ) : WithTop ℚ)) :=
  success_consistency (fun _ _ => 0) [[[1]]] [[[1]]] 0 100 1 1 _
    run_pipeline_eval

/-- Witness for C3 on the concrete one-image run with requested count 1. -/
theorem phase_b_ranking_witness :
    ([(0:ℚ)]).Sorted (· ≤ ·) ∧
    ([(0:ℚ)]).length = min 1 ([[[1]]] : List Image).length ∧
    ([[[1]]] : List Image).length = min 1 ([[[1]]] : List Image).length ∧
    ([(0:ℚ)] = ([[[1]]] : List Image).map
      (fun g => mean_squared_error [[1]] g)) ∧
    num_images_default = 10 :=
  phase_b_ranking (fun _ _ => 0) [[[1]]] [[[1]]] 0 100 1 1 _
    run_pipeline_eval

/-- Witness for C10 on the concrete one-image run: the ranked output starts
with the best image itself at MSE zero. -/
theorem top_entry_is_best_witness :
    (∀ x ∈ ([[[1]]] : List Image),
        x.map List.length = ([[1]] : Image).map List.length) ∧
    ([(0:ℚ)] : List ℚ).head? = some 0 ∧
    ([[[1]]] : List Image).head? = some [[1]] := by
  have hsh : ∀ x ∈ ([[[1]]] : List Image),
      x.map List.length = ([[1]] : Image).map List.length := by decide
  have h := top_entry_is_best (fun _ _ => 0) [[[1]]] [[[1]]] 0 100 1 1 _
    run_pipeline_eval (le_refl 1) hsh
  exact ⟨hsh, h.1, h.2⟩

end WildfireGen
